import Mathlib

/-!
Verification of the pajamax gRPC server framework's protocol core.

Rust sources are shallowly embedded: bytes are `Nat` values below 256,
byte buffers are `List Nat`, fallible functions return `Except`/`Option`,
and struct-mutating methods become state-passing functions.
-/

namespace Pajamax

/-! ## Frame codec (src/pajamax/src/http2.rs) -/

/-- HTTP/2 frame kinds, embedding `enum FrameKind` with `repr(u8)`
discriminants 0..9 and a catch-all `unknown` (discriminant 10). -/
inductive FrameKind
  | data
  | headers
  | priority
  | reset
  | settings
  | pushPromise
  | ping
  | goAway
  | windowUpdate
  | continuation
  | unknown
deriving DecidableEq, Repr

/-- Embeds `FrameKind::from(byte: u8)`. -/
def FrameKind.fromNat (b : Nat) : FrameKind :=
  match b with
  | 0 => .data
  | 1 => .headers
  | 2 => .priority
  | 3 => .reset
  | 4 => .settings
  | 5 => .pushPromise
  | 6 => .ping
  | 7 => .goAway
  | 8 => .windowUpdate
  | 9 => .continuation
  | _ => .unknown

/-- Embeds the Rust cast `kind as u8` (the `repr(u8)` discriminant;
`Unknown` is the next discriminant after `Continuation = 9`, i.e. 10). -/
def FrameKind.toNat : FrameKind → Nat
  | .data => 0
  | .headers => 1
  | .priority => 2
  | .reset => 3
  | .settings => 4
  | .pushPromise => 5
  | .ping => 6
  | .goAway => 7
  | .windowUpdate => 8
  | .continuation => 9
  | .unknown => 10

/-- Embeds `parse_u32` (`u32::from_be_bytes` of the first four bytes of
the slice). Rust indexing panics if the slice is shorter than 4; all call
sites guarantee the bound, and `getD _ 0` agrees with the source there. -/
def parse_u32 (buf : List Nat) : Nat :=
  (buf.getD 0 0) * 2 ^ 24 + (buf.getD 1 0) * 2 ^ 16 + (buf.getD 2 0) * 2 ^ 8 + buf.getD 3 0

/-- Embeds `build_u32` (big-endian byte render of a `u32`). -/
def build_u32 (n : Nat) : List Nat :=
  [n / 2 ^ 24 % 256, n / 2 ^ 16 % 256, n / 2 ^ 8 % 256, n % 256]

/-- Embeds `struct Frame`: a decoded HTTP/2 frame header plus payload.
`flags` keeps the raw flag byte (`HeadFlags` is a newtype over `u8`). -/
structure Frame where
  len : Nat
  flags : Nat
  kind : FrameKind
  stream_id : Nat
  payload : List Nat
deriving DecidableEq, Repr

/-- Embeds `Frame::HEAD_SIZE`. -/
def headSize : Nat := 9

/-- Embeds `Frame::parse`: `None` when the buffer does not yet hold the
9-byte header plus `len` payload bytes, otherwise the decoded view.
The length field is `u32::from_be_bytes([0, buf[0], buf[1], buf[2]])` and
the stream id is `parse_u32(&buf[5..])` (note: no masking of the reserved
high bit). -/
def Frame.parse (buf : List Nat) : Option Frame :=
  if buf.length < 9 then none
  else if buf.length - 9 < (buf.getD 0 0) * 2 ^ 16 + (buf.getD 1 0) * 2 ^ 8 + buf.getD 2 0
    then none
  else some
    { len := (buf.getD 0 0) * 2 ^ 16 + (buf.getD 1 0) * 2 ^ 8 + buf.getD 2 0
      kind := FrameKind.fromNat (buf.getD 3 0)
      flags := buf.getD 4 0
      stream_id := parse_u32 (buf.drop 5)
      payload := (buf.drop 9).take ((buf.getD 0 0) * 2 ^ 16 + (buf.getD 1 0) * 2 ^ 8 + buf.getD 2 0) }

/-- Embeds `Frame::build_head`: the 9 header bytes written into
`output[..9]` — 3 big-endian length bytes (`(len as u32).to_be_bytes()`
with the top byte dropped), the kind byte, the flags byte, and 4
big-endian stream-id bytes. `% 2^32` embeds the `as u32` cast (identity
on all values the callers pass). -/
def Frame.build_head (len : Nat) (kind : FrameKind) (flags : Nat) (stream_id : Nat) :
    List Nat :=
  let l := len % 2 ^ 32
  [l / 2 ^ 16 % 256, l / 2 ^ 8 % 256, l % 256, kind.toNat, flags] ++ build_u32 (stream_id % 2 ^ 32)

/-! ## Config (src/pajamax/src/config.rs) -/

/-- Embeds `struct Config`. The two `Duration` fields are abstracted to
naturals (seconds); the claims under study do not inspect durations. -/
structure Config where
  max_concurrent_connections : Nat
  max_concurrent_streams : Nat
  max_frame_size : Nat
  max_flush_requests : Nat
  max_flush_size : Nat
  idle_timeout : Nat
  write_timeout : Nat
deriving DecidableEq, Repr

/-- Embeds `Config::new` with the documented defaults. -/
def Config.new : Config :=
  { max_concurrent_connections := 100
    max_concurrent_streams := 1000
    max_frame_size := 16 * 1024
    max_flush_requests := 50
    max_flush_size := 15000
    idle_timeout := 60
    write_timeout := 10 }

/-- Embeds the builder method `Config::max_flush_size(self, n)` exactly as
written in the source: `Self { max_frame_size: n, ..self }` — note that
the body updates `max_frame_size`, not `max_flush_size`. (Renamed here
because the Lean field projection already takes the source name.) -/
def Config.max_flush_size_builder (c : Config) (n : Nat) : Config :=
  { c with max_frame_size := n }

/-! ## Theorems for claims C5, C6, C10 -/

lemma frameKind_roundtrip : ∀ b : Nat, b ≤ 10 → (FrameKind.fromNat b).toNat = b := by
  decide

lemma getD_lt_256 (l : List Nat) (hb : ∀ b ∈ l, b < 256) (i : Nat) : l.getD i 0 < 256 := by
  induction l generalizing i with
  | nil => simp [List.getD]
  | cons x xs ih =>
    cases i with
    | zero => simpa using hb x (by simp)
    | succ n => simpa using ih (fun b hm => hb b (by simp [hm])) n

lemma getD_drop (l : List Nat) (n i : Nat) : (l.drop n).getD i 0 = l.getD (n + i) 0 := by
  simp [List.getD_eq_getElem?_getD, List.getElem?_drop]

lemma list_take_nine (l : List Nat) (h : 9 ≤ l.length) :
    l.take 9 = [l.getD 0 0, l.getD 1 0, l.getD 2 0, l.getD 3 0, l.getD 4 0,
      l.getD 5 0, l.getD 6 0, l.getD 7 0, l.getD 8 0] := by
  rcases l with _ | ⟨a0, l⟩; · simp only [List.length_nil] at h; omega
  rcases l with _ | ⟨a1, l⟩; · simp only [List.length_cons, List.length_nil] at h; omega
  rcases l with _ | ⟨a2, l⟩; · simp only [List.length_cons, List.length_nil] at h; omega
  rcases l with _ | ⟨a3, l⟩; · simp only [List.length_cons, List.length_nil] at h; omega
  rcases l with _ | ⟨a4, l⟩; · simp only [List.length_cons, List.length_nil] at h; omega
  rcases l with _ | ⟨a5, l⟩; · simp only [List.length_cons, List.length_nil] at h; omega
  rcases l with _ | ⟨a6, l⟩; · simp only [List.length_cons, List.length_nil] at h; omega
  rcases l with _ | ⟨a7, l⟩; · simp only [List.length_cons, List.length_nil] at h; omega
  rcases l with _ | ⟨a8, l⟩; · simp only [List.length_cons, List.length_nil] at h; omega
  rfl

/-- C5 counterexample: `Frame::parse` does not clear the reserved high bit
of the stream id. On the 9-byte header `[0,0,0, 0, 0, 128,0,0,1]` parse
succeeds and the parsed `stream_id >> 31` is 1, refuting the claimed
invariant `stream_id >> 31 == 0`. -/
theorem C5_reserved_bit_counterexample :
    (Frame.parse [0, 0, 0, 0, 0, 128, 0, 0, 1]).map (fun f => f.stream_id >>> 31) = some 1 := by
  rfl

/-- C5 amended: every frame returned by `Frame::parse` satisfies
`payload.length = len`; the stream id is the raw 32-bit big-endian value
of input bytes 5..9, so `stream_id >> 31 = 0` holds exactly when the high
bit of input byte 5 is clear (the parser performs no masking). -/
theorem C5_parse_invariant (buf : List Nat) (f : Frame)
    (hb : ∀ b ∈ buf, b < 256) (hp : Frame.parse buf = some f) :
    f.payload.length = f.len ∧ (buf.getD 5 0 < 128 → f.stream_id >>> 31 = 0) := by
  rcases buf with _ | ⟨b0, buf⟩; · simp [Frame.parse] at hp
  rcases buf with _ | ⟨b1, buf⟩; · simp [Frame.parse] at hp
  rcases buf with _ | ⟨b2, buf⟩; · simp [Frame.parse] at hp
  rcases buf with _ | ⟨b3, buf⟩; · simp [Frame.parse] at hp
  rcases buf with _ | ⟨b4, buf⟩; · simp [Frame.parse] at hp
  rcases buf with _ | ⟨b5, buf⟩; · simp [Frame.parse] at hp
  rcases buf with _ | ⟨b6, buf⟩; · simp [Frame.parse] at hp
  rcases buf with _ | ⟨b7, buf⟩; · simp [Frame.parse] at hp
  rcases buf with _ | ⟨b8, rest⟩; · simp [Frame.parse] at hp
  have hb6 : b6 < 256 := hb b6 (by simp)
  have hb7 : b7 < 256 := hb b7 (by simp)
  have hb8 : b8 < 256 := hb b8 (by simp)
  unfold Frame.parse at hp
  simp only [parse_u32, List.getD_cons_zero, List.getD_cons_succ, List.length_cons,
    List.length_nil, List.drop_succ_cons, List.drop_zero] at hp
  split at hp
  · exact absurd hp (by simp)
  · split at hp
    · exact absurd hp (by simp)
    · next hfit =>
      simp only [Option.some.injEq] at hp
      subst hp
      constructor
      · simp only [List.length_take]
        norm_num at hfit ⊢
        omega
      · intro h5
        simp only [List.getD_cons_zero, List.getD_cons_succ] at h5
        show (b5 * 2 ^ 24 + b6 * 2 ^ 16 + b7 * 2 ^ 8 + b8) >>> 31 = 0
        rw [Nat.shiftRight_eq_div_pow]
        norm_num
        omega

/-- C5 witness: the amended parse invariant applied to a concrete valid
frame (a 13-byte buffer holding one 4-byte DATA frame on stream 1). -/
theorem C5_parse_invariant_witness :
    ([0, 0, 4, 0, 0, 0, 0, 0, 1, 9, 9, 9, 9].getD 5 0 < 128 → (1 : Nat) >>> 31 = 0) ∧
    (4 : Nat) = 4 := by
  have h := C5_parse_invariant [0, 0, 4, 0, 0, 0, 0, 0, 1, 9, 9, 9, 9]
    { len := 4, flags := 0, kind := .data, stream_id := 1, payload := [9, 9, 9, 9] }
    (by decide) (by rfl)
  exact ⟨h.2, h.1⟩

/-- C6 counterexample: the header round-trip fails on unknown frame kinds.
The 9-byte header `[0,0,0, 11, 0, 0,0,0,0]` parses (kind byte 11 becomes
`Unknown`), but rebuilding writes discriminant 10, not 11. -/
theorem C6_roundtrip_counterexample :
    (Frame.parse [0, 0, 0, 11, 0, 0, 0, 0, 0]).map
      (fun f => Frame.build_head f.len f.kind f.flags f.stream_id) =
      some [0, 0, 0, 10, 0, 0, 0, 0, 0] ∧
    ([0, 0, 0, 10, 0, 0, 0, 0, 0] : List Nat) ≠ [0, 0, 0, 11, 0, 0, 0, 0, 0] := by
  constructor
  · rfl
  · decide

/-- C6 amended: for every byte sequence accepted by `Frame::parse` whose
kind byte (byte 3) is at most 10, re-serializing the parsed fields with
`Frame::build_head` reproduces exactly the original 9 header bytes. (For
kind bytes ≥ 11 the parse collapses them to `Unknown`, which rebuilds as
byte 10, so the round-trip fails — see the counterexample.) -/
theorem C6_head_roundtrip (buf : List Nat) (f : Frame)
    (hb : ∀ b ∈ buf, b < 256) (hk : buf.getD 3 0 ≤ 10) (hp : Frame.parse buf = some f) :
    Frame.build_head f.len f.kind f.flags f.stream_id = buf.take 9 := by
  rcases buf with _ | ⟨b0, buf⟩; · simp [Frame.parse] at hp
  rcases buf with _ | ⟨b1, buf⟩; · simp [Frame.parse] at hp
  rcases buf with _ | ⟨b2, buf⟩; · simp [Frame.parse] at hp
  rcases buf with _ | ⟨b3, buf⟩; · simp [Frame.parse] at hp
  rcases buf with _ | ⟨b4, buf⟩; · simp [Frame.parse] at hp
  rcases buf with _ | ⟨b5, buf⟩; · simp [Frame.parse] at hp
  rcases buf with _ | ⟨b6, buf⟩; · simp [Frame.parse] at hp
  rcases buf with _ | ⟨b7, buf⟩; · simp [Frame.parse] at hp
  rcases buf with _ | ⟨b8, rest⟩; · simp [Frame.parse] at hp
  have hb0 : b0 < 256 := hb b0 (by simp)
  have hb1 : b1 < 256 := hb b1 (by simp)
  have hb2 : b2 < 256 := hb b2 (by simp)
  have hb5 : b5 < 256 := hb b5 (by simp)
  have hb6 : b6 < 256 := hb b6 (by simp)
  have hb7 : b7 < 256 := hb b7 (by simp)
  have hb8 : b8 < 256 := hb b8 (by simp)
  simp only [List.getD_cons_zero, List.getD_cons_succ] at hk
  unfold Frame.parse at hp
  simp only [parse_u32, List.getD_cons_zero, List.getD_cons_succ, List.length_cons,
    List.length_nil, List.drop_succ_cons, List.drop_zero] at hp
  split at hp
  · exact absurd hp (by simp)
  · split at hp
    · exact absurd hp (by simp)
    · simp only [Option.some.injEq] at hp
      subst hp
      rw [show (b0 :: b1 :: b2 :: b3 :: b4 :: b5 :: b6 :: b7 :: b8 :: rest).take 9 =
        [b0, b1, b2, b3, b4, b5, b6, b7, b8] from rfl]
      simp only [Frame.build_head, build_u32, List.cons_append, List.nil_append]
      have c0 : (b0 * 2 ^ 16 + b1 * 2 ^ 8 + b2) % 2 ^ 32 / 2 ^ 16 % 256 = b0 := by
        norm_num; omega
      have c1 : (b0 * 2 ^ 16 + b1 * 2 ^ 8 + b2) % 2 ^ 32 / 2 ^ 8 % 256 = b1 := by
        norm_num; omega
      have c2 : (b0 * 2 ^ 16 + b1 * 2 ^ 8 + b2) % 2 ^ 32 % 256 = b2 := by
        norm_num; omega
      have s0 : (b5 * 2 ^ 24 + b6 * 2 ^ 16 + b7 * 2 ^ 8 + b8) % 2 ^ 32 / 2 ^ 24 % 256 = b5 := by
        norm_num; omega
      have s1 : (b5 * 2 ^ 24 + b6 * 2 ^ 16 + b7 * 2 ^ 8 + b8) % 2 ^ 32 / 2 ^ 16 % 256 = b6 := by
        norm_num; omega
      have s2 : (b5 * 2 ^ 24 + b6 * 2 ^ 16 + b7 * 2 ^ 8 + b8) % 2 ^ 32 / 2 ^ 8 % 256 = b7 := by
        norm_num; omega
      have s3 : (b5 * 2 ^ 24 + b6 * 2 ^ 16 + b7 * 2 ^ 8 + b8) % 2 ^ 32 % 256 = b8 := by
        norm_num; omega
      rw [c0, c1, c2, s0, s1, s2, s3, frameKind_roundtrip _ hk]

/-- C6 witness: the amended round-trip applied to a concrete 9-byte
SETTINGS frame header. -/
theorem C6_head_roundtrip_witness :
    Frame.build_head 0 .settings 0 0 = ([0, 0, 0, 4, 0, 0, 0, 0, 0] : List Nat).take 9 := by
  exact C6_head_roundtrip [0, 0, 0, 4, 0, 0, 0, 0, 0]
    { len := 0, flags := 0, kind := .settings, stream_id := 0, payload := [] }
    (by decide) (by decide) (by rfl)

/-- C10: the builder `Config::max_flush_size(n)` is mis-wired — it stores
`n` into `max_frame_size` and leaves `max_flush_size` at its old value.
Evaluated at `Config::new().max_flush_size(7)`: the `max_flush_size` field
is still 15000 (the claim requires 7) and `max_frame_size` was clobbered
from 16384 to 7 (the claim requires it unchanged). -/
theorem C10_max_flush_size_bug :
    (Config.new.max_flush_size_builder 7).max_flush_size = 15000 ∧
    (Config.new.max_flush_size_builder 7).max_frame_size = 7 ∧
    Config.new.max_frame_size = 16384 := by
  decide


/-! ## HPACK integer codec (src/pajamax/src/hpack_encoder.rs, hpack_decoder.rs) -/

/-- Outcome of `decode_int` (src/pajamax/src/hpack_decoder.rs). `indexPanic`
marks the Rust slice access `buf[bytes]` going past the end of the slice,
which panics at run time; the other constructors embed
`Ok((value, consumed))` and `Err(Error::InvalidHpack(msg))`. -/
inductive DIResult
  | ok (value consumed : Nat)
  | err (msg : String)
  | indexPanic
deriving DecidableEq, Repr

/-- Embeds the continuation-byte loop of `decode_int` (the `while
!buf.is_empty()` loop). The loop condition never changes, so the trailing
`Err("need more")` is reachable only through the modelled-as-`indexPanic`
out-of-bounds access `buf[bytes]`. -/
def diLoop (buf : List Nat) (bytes ret shift : Nat) : DIResult :=
  if buf.isEmpty then .err "need more"
  else
    match hb : buf.get? bytes with
    | none => .indexPanic
    | some b =>
      if b &&& 128 == 0 then .ok (ret + ((b &&& 127) <<< shift)) (bytes + 1)
      else if bytes + 1 == 5 then .err "integer overflow"
      else diLoop buf (bytes + 1) (ret + ((b &&& 127) <<< shift)) (shift + 7)
termination_by buf.length - bytes
decreasing_by
  have hlt : bytes < buf.length := by
    by_contra hge
    rw [List.get?_eq_none.mpr (by omega)] at hb
    exact absurd hb (by simp)
  omega

/-- Embeds `decode_int(buf, prefix_size)`: prefix-bit extraction followed
by the varint continuation loop. -/
def decode_int (buf : List Nat) (prefix_size : Nat) : DIResult :=
  if prefix_size < 1 || prefix_size > 8 then .err "invalid integer"
  else if buf.isEmpty then .err "need more"
  else
    let mask := if prefix_size == 8 then 255 else (1 <<< prefix_size) - 1
    let ret := buf.getD 0 0 &&& mask
    if ret < mask then .ok ret 1
    else diLoop buf 1 ret 0

/-- Embeds `encode_int_one_byte`. -/
def encode_int_one_byte (value prefix_bits : Nat) : Bool :=
  decide (value < (1 <<< prefix_bits) - 1)

/-- Embeds the `while value >= 128` byte-emitting loop of `encode_int`
plus the final `dst.push(value as u8)`. -/
def encVarint (value : Nat) : List Nat :=
  if value ≥ 128 then (128 ||| value % 256) :: encVarint (value >>> 7)
  else [value % 256]
termination_by value
decreasing_by
  rename_i h
  rw [Nat.shiftRight_eq_div_pow]
  omega

/-- Embeds `encode_int(value, prefix_bits, first_byte)` returning the
emitted bytes; `% 256` embeds the `as u8` casts. -/
def encode_int (value prefix_bits : Nat) (first_byte : Nat) : List Nat :=
  if encode_int_one_byte value prefix_bits then [first_byte ||| value % 256]
  else
    (first_byte ||| ((1 <<< prefix_bits) - 1) % 256) ::
      encVarint (value - ((1 <<< prefix_bits) - 1))

lemma or_mod_two_pow (a b n : Nat) : (a ||| b) % 2 ^ n = a % 2 ^ n ||| b % 2 ^ n := by
  apply Nat.eq_of_testBit_eq
  intro i
  simp only [Nat.testBit_mod_two_pow, Nat.testBit_or]
  cases hd : decide (i < n) <;> simp

lemma and_128_of_lt (v : Nat) (h : v < 128) : v &&& 128 = 0 := by
  apply Nat.eq_of_testBit_eq
  intro i
  rw [show (128 : Nat) = 2 ^ 7 from rfl]
  simp only [Nat.testBit_and, Nat.testBit_two_pow, Nat.zero_testBit]
  by_cases h7 : 7 = i
  · subst h7
    simp [Nat.testBit_lt_two_pow (x := v) (i := 7) h]
  · simp [h7]

lemma or128_and_128 (x : Nat) : (128 ||| x) &&& 128 = 128 := by
  apply Nat.eq_of_testBit_eq
  intro i
  rw [show (128 : Nat) = 2 ^ 7 from rfl]
  simp only [Nat.testBit_and, Nat.testBit_or, Nat.testBit_two_pow]
  cases hd : decide (7 = i) <;> simp [hd]

lemma and_127_eq_mod (x : Nat) : x &&& 127 = x % 128 := by
  rw [show (127 : Nat) = 2 ^ 7 - 1 from rfl, Nat.and_pow_two_sub_one_eq_mod]

lemma or128_and_127 (x : Nat) : (128 ||| x) &&& 127 = x % 128 := by
  rw [and_127_eq_mod, show (128 : Nat) = 2 ^ 7 from rfl, or_mod_two_pow]
  simp

lemma encVarint_length (v k : Nat) (hk : 1 ≤ k) (h : v < 128 ^ k) :
    (encVarint v).length ≤ k := by
  induction v using Nat.strong_induction_on generalizing k with
  | _ v ih =>
    rw [encVarint]
    by_cases hv : v ≥ 128
    · have hk2 : 2 ≤ k := by
        rcases k with _ | _ | k
        · omega
        · simp at h; omega
        · omega
      rw [if_pos hv]
      simp only [List.length_cons]
      have hrec : (encVarint (v >>> 7)).length ≤ k - 1 := by
        apply ih
        · rw [Nat.shiftRight_eq_div_pow]
          omega
        · omega
        · rw [Nat.shiftRight_eq_div_pow]
          have : 128 ^ (k - 1) * 128 = 128 ^ k := by
            rw [← Nat.pow_succ]
            congr 1
            omega
          have hdiv : v / 2 ^ 7 < 128 ^ (k - 1) := by
            apply Nat.div_lt_of_lt_mul
            calc v < 128 ^ k := h
            _ = 128 ^ (k-1) * 128 := this.symm
            _ = 2 ^ 7 * 128 ^ (k-1) := by ring
          exact hdiv
      omega
    · rw [if_neg hv]
      simp only [List.length_cons, List.length_nil]
      omega

lemma diLoop_encVarint (v : Nat) (buf : List Nat) (bytes ret shift : Nat)
    (hcap : bytes + (encVarint v).length ≤ 5)
    (hget : ∀ i, i < (encVarint v).length → buf.get? (bytes + i) = (encVarint v).get? i)
    (hne : buf.isEmpty = false) :
    diLoop buf bytes ret shift = .ok (ret + v * 2 ^ shift) (bytes + (encVarint v).length) := by
  induction v using Nat.strong_induction_on generalizing bytes ret shift with
  | _ v ih =>
    by_cases hv : v ≥ 128
    · have henc : encVarint v = (128 ||| v % 256) :: encVarint (v >>> 7) := by
        rw [encVarint, if_pos hv]
      rw [henc] at hcap hget ⊢
      simp only [List.length_cons] at hcap hget ⊢
      have h0 : buf.get? bytes = some (128 ||| v % 256) := by
        have h00 := hget 0 (by omega)
        simpa using h00
      rw [diLoop, hne, h0]
      simp only [Bool.false_eq_true, if_false]
      have hflag : (128 ||| v % 256) &&& 128 = 128 := or128_and_128 _
      rw [hflag]
      simp only [show ((128 : Nat) == 0) = false from rfl, Bool.false_eq_true, if_false]
      have hlen1 : 1 ≤ (encVarint (v >>> 7)).length := by
        rw [encVarint]
        split <;> simp
      have hb5 : (bytes + 1 == 5) = false := by
        simp only [beq_eq_false_iff_ne, ne_eq]
        omega
      rw [hb5]
      simp only [Bool.false_eq_true, if_false]
      have hlow : (128 ||| v % 256) &&& 127 = v % 128 := by
        rw [or128_and_127]
        omega
      rw [hlow]
      have hlt7 : v >>> 7 < v := by
        rw [Nat.shiftRight_eq_div_pow]
        omega
      have hcap7 : bytes + 1 + (encVarint (v >>> 7)).length ≤ 5 := by omega
      have hget7 : ∀ i, i < (encVarint (v >>> 7)).length →
          buf.get? (bytes + 1 + i) = (encVarint (v >>> 7)).get? i := by
        intro i hi
        have h01 := hget (1 + i) (by omega)
        rw [show bytes + (1 + i) = bytes + 1 + i from by omega,
          show (1 : Nat) + i = i + 1 from by omega] at h01
        simpa using h01
      have hrec := ih (v >>> 7) hlt7 (bytes + 1) (ret + (v % 128) <<< shift) (shift + 7)
        hcap7 hget7
      rw [hrec]
      have harith : ret + (v % 128) <<< shift + v >>> 7 * 2 ^ (shift + 7) =
          ret + v * 2 ^ shift := by
        rw [Nat.shiftLeft_eq, Nat.shiftRight_eq_div_pow]
        have hdm : 2 ^ 7 * (v / 2 ^ 7) + v % 128 = v := by
          have h02 := Nat.div_add_mod v 128
          norm_num
          omega
        calc ret + v % 128 * 2 ^ shift + v / 2 ^ 7 * 2 ^ (shift + 7)
            = ret + (2 ^ 7 * (v / 2 ^ 7) + v % 128) * 2 ^ shift := by ring
          _ = ret + v * 2 ^ shift := by rw [hdm]
      rw [harith]
      congr 1
      omega
    · have henc : encVarint v = [v % 256] := by
        rw [encVarint, if_neg hv]
      rw [henc] at hcap hget ⊢
      simp only [List.length_cons, List.length_nil] at hcap hget ⊢
      have hv128 : v < 128 := by omega
      have hvm : v % 256 = v := Nat.mod_eq_of_lt (by omega)
      have h0 : buf.get? bytes = some v := by
        have h00 := hget 0 (by omega)
        simpa [hvm] using h00
      rw [diLoop, hne, h0]
      simp only [Bool.false_eq_true, if_false]
      rw [and_128_of_lt v hv128]
      simp only [show ((0 : Nat) == 0) = true from rfl, if_true]
      rw [and_127_eq_mod, Nat.shiftLeft_eq, Nat.mod_eq_of_lt hv128]

/-- C4: evaluated at the failing input. `decode_int([0xff], 7)` reads the
prefix byte `0xff & 0x7f = 127 = mask`, enters the continuation loop, and
immediately indexes `buf[1]` on the one-byte slice: an out-of-bounds
access (a Rust panic), not the claimed `InvalidHpack("need more")` error.
The loop guard `while !buf.is_empty()` never changes, so the trailing
`need more` return is unreachable for every truncated varint. -/
theorem C4_decode_int_truncated_panics : decode_int [255] 7 = .indexPanic := by
  rw [decode_int]
  norm_num
  rw [diLoop]
  decide

/-- C7: HPACK integer round-trip. For every `n < 2^28`, prefix size
`p ∈ [1,8]` and first byte `fb < 256` whose low `p` bits are zero,
`decode_int (encode_int n p fb) p` returns exactly `n` with the full
emitted byte count consumed. -/
theorem C7_hpack_int_roundtrip (n p fb : Nat) (h1 : 1 ≤ p) (h2 : p ≤ 8)
    (hn : n < 2 ^ 28) (hfb256 : fb < 256) (hfb : fb % 2 ^ p = 0) :
    decode_int (encode_int n p fb) p = .ok n (encode_int n p fb).length := by
  have hmaskle : 2 ^ p - 1 ≤ 255 := by
    have : 2 ^ p ≤ 2 ^ 8 := Nat.pow_le_pow_right (by norm_num) h2
    norm_num at this ⊢
    omega
  have hp2 : 1 < 2 ^ p := by
    have : 2 ^ 1 ≤ 2 ^ p := Nat.pow_le_pow_right (by norm_num) h1
    norm_num at this
    omega
  have hmask_eq : (if p == 8 then 255 else (1 <<< p) - 1) = 2 ^ p - 1 := by
    by_cases h8 : p = 8
    · subst h8
      norm_num
    · rw [if_neg (by simpa using h8), Nat.shiftLeft_eq, one_mul]
  by_cases hone : n < (1 <<< p) - 1
  · have hnp : n < 2 ^ p - 1 := by rwa [Nat.shiftLeft_eq, one_mul] at hone
    have henc : encode_int n p fb = [fb ||| n % 256] := by
      rw [encode_int, if_pos]
      rw [encode_int_one_byte]
      simpa using hone
    rw [henc, decode_int]
    have hguards : (p < 1 || p > 8) = false := by
      simp only [Bool.or_eq_false_iff, decide_eq_false_iff_not]
      omega
    rw [hguards]
    simp only [Bool.false_eq_true, if_false, List.isEmpty_cons, List.getD_cons_zero,
      List.length_cons, List.length_nil, hmask_eq]
    have hnm : n % 256 = n := Nat.mod_eq_of_lt (by omega)
    have hret : (fb ||| n % 256) &&& (2 ^ p - 1) = n := by
      rw [hnm, Nat.and_pow_two_sub_one_eq_mod, or_mod_two_pow, hfb,
        Nat.mod_eq_of_lt (show n < 2 ^ p by omega)]
      simp
    rw [hret, if_pos (by omega)]
  · have hnp : ¬ n < 2 ^ p - 1 := by rwa [Nat.shiftLeft_eq, one_mul] at hone
    have henc : encode_int n p fb =
        (fb ||| ((1 <<< p) - 1) % 256) :: encVarint (n - ((1 <<< p) - 1)) := by
      rw [encode_int, if_neg]
      rw [encode_int_one_byte]
      simpa using hone
    have hlow : (1 <<< p) - 1 = 2 ^ p - 1 := by rw [Nat.shiftLeft_eq, one_mul]
    have hlowm : (2 ^ p - 1) % 256 = 2 ^ p - 1 := Nat.mod_eq_of_lt (by omega)
    rw [henc, hlow, hlowm, decode_int]
    have hguards : (p < 1 || p > 8) = false := by
      simp only [Bool.or_eq_false_iff, decide_eq_false_iff_not]
      omega
    rw [hguards]
    simp only [Bool.false_eq_true, if_false, List.isEmpty_cons, List.getD_cons_zero,
      List.length_cons, hmask_eq]
    have hret : (fb ||| (2 ^ p - 1)) &&& (2 ^ p - 1) = 2 ^ p - 1 := by
      rw [Nat.and_pow_two_sub_one_eq_mod, or_mod_two_pow, hfb,
        Nat.mod_eq_of_lt (show 2 ^ p - 1 < 2 ^ p by omega)]
      simp
    rw [hret, if_neg (by omega)]
    have hvlt : n - (2 ^ p - 1) < 128 ^ 4 := by
      norm_num
      omega
    have hlenb : (encVarint (n - (2 ^ p - 1))).length ≤ 4 :=
      encVarint_length (n - (2 ^ p - 1)) 4 (by norm_num) hvlt
    have hcap1 : 1 + (encVarint (n - (2 ^ p - 1))).length ≤ 5 := by omega
    have hgets : ∀ i, i < (encVarint (n - (2 ^ p - 1))).length →
        ((fb ||| (2 ^ p - 1)) :: encVarint (n - (2 ^ p - 1))).get? (1 + i) =
          (encVarint (n - (2 ^ p - 1))).get? i := by
      intro i hi
      rw [show (1 : Nat) + i = i + 1 from by omega]
      simp
    have hloop := diLoop_encVarint (n - (2 ^ p - 1)) ((fb ||| (2 ^ p - 1)) ::
        encVarint (n - (2 ^ p - 1))) 1 (2 ^ p - 1) 0 hcap1 hgets (by simp)
    rw [hloop]
    have hval : 2 ^ p - 1 + (n - (2 ^ p - 1)) * 2 ^ 0 = n := by
      norm_num
      omega
    rw [hval]
    congr 1
    omega

/-- C7 witness: the round-trip applied at `n = 300`, `p = 5`,
`first_byte = 0x20` (low five bits zero). -/
theorem C7_hpack_int_roundtrip_witness :
    decode_int (encode_int 300 5 32) 5 = .ok 300 (encode_int 300 5 32).length :=
  C7_hpack_int_roundtrip 300 5 32 (by norm_num) (by norm_num) (by norm_num)
    (by norm_num) (by norm_num)

/-! ## HPACK reply encoder state (src/pajamax/src/hpack_encoder.rs) -/

/-- Embeds `struct Encoder`: a count of dynamic-table insertions plus the
recorded insertion ranks of the two cached headers. -/
structure Encoder where
  dynamic_table_size : Nat
  rank_grpc_status_zero : Option Nat
  rank_content_type : Option Nat
deriving DecidableEq, Repr

/-- Embeds `Encoder::new`. -/
def Encoder.new : Encoder :=
  { dynamic_table_size := 0, rank_grpc_status_zero := none, rank_content_type := none }

/-- ASCII literals are embedded as their byte lists; variable strings
(status messages, formatted codes) are byte lists throughout, matching
`&str`/`as_bytes` in the source. -/
def litBytes (s : String) : List Nat := s.data.map Char.toNat

/-- Embeds `encode_str` (7-bit-prefix length then the raw bytes). -/
def encode_str (val : List Nat) : List Nat :=
  encode_int val.length 7 0 ++ val

/-- Embeds the free function `encode_header` (`dst.push(0)` then name and
value as string literals). -/
def encode_header (name value : List Nat) : List Nat :=
  0 :: (encode_str name ++ encode_str value)

/-- Embeds `encode_with_indexed_name` (4-bit-prefix name index, then the
value string literal). -/
def encode_with_indexed_name (name : Nat) (value : List Nat) : List Nat :=
  encode_int name 4 0 ++ encode_str value

/-- Embeds `Encoder::dynamic_index`. -/
def Encoder.dynamic_index (e : Encoder) (rank : Nat) : Nat :=
  e.dynamic_table_size - rank + 62

/-- Embeds `Encoder::encode_static_index` (`0x80`-flagged 7-bit-prefix
integer). -/
def Encoder.encode_static_index (e : Encoder) (index : Nat) : List Nat :=
  encode_int index 7 128

/-- Embeds `Encoder::encode_dynamic_index`. -/
def Encoder.encode_dynamic_index (e : Encoder) (rank : Nat) : List Nat :=
  encode_int (e.dynamic_index rank) 7 128

/-- Embeds `Encoder::encode_and_index_header` (LiteralWithIndexing with a
zero name index, then the table-size increment). Returns the new state and
the appended bytes. -/
def Encoder.encode_and_index_header (e : Encoder) (name value : List Nat) :
    Encoder × List Nat :=
  ({ e with dynamic_table_size := e.dynamic_table_size + 1 },
   encode_int 0 6 64 ++ encode_str name ++ encode_str value)

/-- Embeds `Encoder::encode_status_200` (indexed static-table entry 8; no
state change). -/
def Encoder.encode_status_200 (e : Encoder) : Encoder × List Nat :=
  (e, e.encode_static_index 8)

/-- Embeds `Encoder::encode_grpc_status_zero`: warm path emits one indexed
reference, cold path inserts `grpc-status: 0` and records its rank (the
table size right after the insertion). -/
def Encoder.encode_grpc_status_zero (e : Encoder) : Encoder × List Nat :=
  match e.rank_grpc_status_zero with
  | some rank => (e, e.encode_dynamic_index rank)
  | none =>
    let r := e.encode_and_index_header (litBytes "grpc-status") (litBytes "0")
    ({ r.1 with rank_grpc_status_zero := some r.1.dynamic_table_size }, r.2)

/-- Embeds `Encoder::encode_content_type` (same shape for
`content-type: application/grpc`). -/
def Encoder.encode_content_type (e : Encoder) : Encoder × List Nat :=
  match e.rank_content_type with
  | some rank => (e, e.encode_dynamic_index rank)
  | none =>
    let r := e.encode_and_index_header (litBytes "content-type") (litBytes "application/grpc")
    ({ r.1 with rank_content_type := some r.1.dynamic_table_size }, r.2)

/-- Embeds `Encoder::encode_grpc_status_nonzero`. The `CODES` array holds
the decimal strings of 0..16, and larger codes are formatted with
`format!("{}", code)`, so the value is the decimal string of `code` in
every case, embedded via `toString`. No state change. -/
def Encoder.encode_grpc_status_nonzero (e : Encoder) (code : Nat) : List Nat :=
  match e.rank_grpc_status_zero with
  | some rank => encode_with_indexed_name (e.dynamic_index rank) (litBytes (toString code))
  | none => encode_header (litBytes "grpc-status") (litBytes (toString code))

/-- Embeds `Encoder::encode_grpc_message` (always a full literal; no state
change). -/
def Encoder.encode_grpc_message (e : Encoder) (msg : List Nat) : List Nat :=
  encode_header (litBytes "grpc-message") msg

/-- Encoder states reachable by sequences of reply-encoder operations.
Only `encode_grpc_status_zero` and `encode_content_type` modify the state
(`encode_status_200`, `encode_grpc_status_nonzero` and
`encode_grpc_message` take `&self` or never write the rank fields), so
these two constructors generate every reachable state. -/
inductive Reachable : Encoder → Prop
  | new : Reachable Encoder.new
  | status_zero {e : Encoder} : Reachable e → Reachable (e.encode_grpc_status_zero).1
  | content_type {e : Encoder} : Reachable e → Reachable (e.encode_content_type).1

lemma reachable_inv (e : Encoder) (h : Reachable e) :
    e.dynamic_table_size = (if e.rank_grpc_status_zero.isSome then 1 else 0) +
      (if e.rank_content_type.isSome then 1 else 0) ∧
    (∀ r, e.rank_grpc_status_zero = some r → 1 ≤ r ∧ r ≤ e.dynamic_table_size) ∧
    (∀ r, e.rank_content_type = some r → 1 ≤ r ∧ r ≤ e.dynamic_table_size) := by
  induction h with
  | new => simp [Encoder.new]
  | @status_zero e _ ih =>
    obtain ⟨hs, hz, hc⟩ := ih
    rcases hr : e.rank_grpc_status_zero with _ | r
    · simp only [Encoder.encode_grpc_status_zero, hr, Encoder.encode_and_index_header]
      rw [hr] at hs
      simp only [Option.isSome_none, Bool.false_eq_true, if_false] at hs
      refine ⟨by simp [hs] <;> omega, ?_, ?_⟩
      · intro r hrr
        simp only [Option.some.injEq] at hrr
        omega
      · intro r hrr
        have := hc r hrr
        omega
    · simp only [Encoder.encode_grpc_status_zero, hr]
      exact ⟨by rw [hr] at hs; exact hs, by rw [← hr]; exact hz, hc⟩
  | @content_type e _ ih =>
    obtain ⟨hs, hz, hc⟩ := ih
    rcases hr : e.rank_content_type with _ | r
    · simp only [Encoder.encode_content_type, hr, Encoder.encode_and_index_header]
      rw [hr] at hs
      simp only [Option.isSome_none, Bool.false_eq_true, if_false] at hs
      refine ⟨by simp [hs] <;> omega, ?_, ?_⟩
      · intro r hrr
        have := hz r hrr
        omega
      · intro r hrr
        simp only [Option.some.injEq] at hrr
        omega
    · simp only [Encoder.encode_content_type, hr]
      exact ⟨by rw [hr] at hs; exact hs, hz, by rw [← hr]; exact hc⟩

lemma encode_int_small (idx : Nat) (h : idx < 127) : encode_int idx 7 128 = [128 ||| idx] := by
  rw [encode_int, if_pos, Nat.mod_eq_of_lt (by omega)]
  rw [encode_int_one_byte]
  norm_num
  omega

/-- C9: in every reachable encoder state where the rank of
`content-type` (resp. `grpc-status: 0`) is recorded — i.e. after the
first call — a further `encode_content_type`
(resp. `encode_grpc_status_zero`) call appends exactly one byte: the
Indexed representation `0x80 | index` with
`index = dynamic_table_size - rank + 62` computed at call time. -/
theorem C9_warm_calls_single_indexed_byte (e : Encoder) (he : Reachable e) :
    (∀ r, e.rank_content_type = some r →
      (e.encode_content_type).2 = [128 ||| (e.dynamic_table_size - r + 62)]) ∧
    (∀ r, e.rank_grpc_status_zero = some r →
      (e.encode_grpc_status_zero).2 = [128 ||| (e.dynamic_table_size - r + 62)]) := by
  obtain ⟨hs, hz, hc⟩ := reachable_inv e he
  constructor
  · intro r hr
    have hb := hc r hr
    simp only [Encoder.encode_content_type, hr]
    rw [Encoder.encode_dynamic_index, Encoder.dynamic_index, encode_int_small]
    split at hs <;> split at hs <;> omega
  · intro r hr
    have hb := hz r hr
    simp only [Encoder.encode_grpc_status_zero, hr]
    rw [Encoder.encode_dynamic_index, Encoder.dynamic_index, encode_int_small]
    split at hs <;> split at hs <;> omega

/-- C9 witness: after warming each header once from a fresh encoder, the
second call emits the single byte `0x80 | 62 = 190`. -/
theorem C9_warm_calls_witness :
    ((Encoder.new.encode_content_type).1.encode_content_type).2 = [190] ∧
    ((Encoder.new.encode_grpc_status_zero).1.encode_grpc_status_zero).2 = [190] := by
  constructor
  · have h := (C9_warm_calls_single_indexed_byte (Encoder.new.encode_content_type).1
      (Reachable.content_type Reachable.new)).1 1 (by rfl)
    exact h.trans (by decide)
  · have h := (C9_warm_calls_single_indexed_byte (Encoder.new.encode_grpc_status_zero).1
      (Reachable.status_zero Reachable.new)).2 1 (by rfl)
    exact h.trans (by decide)

/-! ## Error response builder (src/pajamax/src/http2.rs `build_status`) -/

/-- Modelled from the spec: the `Status` type lives in
`src/pajamax/src/status.rs`, which is not present under `src/`; spec §3
defines it as `{code: u32, message: string}` with gRPC canonical codes.
The message is kept as its UTF-8 byte list. -/
structure Status where
  code : Nat
  message : List Nat
deriving DecidableEq, Repr

/-- Embeds `build_status`: reserve 9 bytes, append the HPACK block
(`:status: 200`, `content-type`, `grpc-status: <code>`,
`grpc-message: <msg>`), then write the HEADERS frame head over the
reserved bytes with flags `END_HEADERS` (0x4) — the source does not set
`END_STREAM` here. Returns the new encoder state and the output buffer. -/
def build_status (stream_id : Nat) (status : Status) (e : Encoder) (output : List Nat) :
    Encoder × List Nat :=
  let r1 := e.encode_status_200
  let r2 := r1.1.encode_content_type
  let b3 := r2.1.encode_grpc_status_nonzero status.code
  let b4 := r2.1.encode_grpc_message status.message
  let block := r1.2 ++ r2.2 ++ b3 ++ b4
  (r2.1, output ++ Frame.build_head block.length .headers 4 stream_id ++ block)

set_option maxRecDepth 4000 in
/-- C1: evaluated on a fresh encoder at stream 1 with status
`{code: 5, message: "NF"}`. The output is exactly one HEADERS frame
(9-byte head plus a 64-byte block, 73 bytes total), but its flags byte is
4 = END_HEADERS alone — the source never sets END_STREAM (0x1) in
`build_status`, so the claimed flags END_HEADERS | END_STREAM = 0x5 do
not hold and the error response leaves the stream open. -/
theorem C1_build_status_missing_end_stream :
    (Frame.parse (build_status 1 ⟨5, litBytes "NF"⟩ Encoder.new []).2).map
        (fun f => (f.kind, f.flags, f.len)) = some (FrameKind.headers, 4, 64) ∧
    (build_status 1 ⟨5, litBytes "NF"⟩ Encoder.new []).2.length = 9 + 64 ∧
    (4 : Nat) ≠ 4 ||| 1 := by
  exact ⟨rfl, rfl, by decide⟩

/-! ## Response buffering and flush (src/pajamax/src/response_end.rs) -/

/-- Embeds `build_window_update`: append a WINDOW_UPDATE frame (head with
length 4, kind 8, flags 0, stream 0, then the 4-byte big-endian
increment, `len as u32`). -/
def build_window_update (len : Nat) (output : List Nat) : List Nat :=
  output ++ Frame.build_head 4 .windowUpdate 0 0 ++ build_u32 (len % 2 ^ 32)

/-- Embeds `struct ResponseEnd` minus the socket handle (`c`), which only
receives the final `write_all`; `flush` below returns the written bytes
instead. -/
structure ResponseEnd where
  req_count : Nat
  req_data_len : Nat
  hpack_encoder : Encoder
  output : List Nat
  max_flush_requests : Nat
  max_flush_size : Nat
deriving DecidableEq, Repr

/-- Embeds `ResponseEnd::flush`: nothing is written when the buffer is
empty; otherwise the WINDOW_UPDATE is appended, the whole buffer is
written, and the buffer and both counters are cleared. The first
component is the byte sequence handed to `write_all`. -/
def ResponseEnd.flush (r : ResponseEnd) : List Nat × ResponseEnd :=
  if r.output.length = 0 then ([], r)
  else (build_window_update r.req_data_len r.output,
    { r with output := [], req_count := 0, req_data_len := 0 })

lemma buildHead_wu : Frame.build_head 4 .windowUpdate 0 0 = [0, 0, 4, 8, 0, 0, 0, 0, 0] := by
  rfl

lemma parse_window_update (v : Nat) :
    Frame.parse (Frame.build_head 4 .windowUpdate 0 0 ++ build_u32 v) =
      some { len := 4, flags := 0, kind := .windowUpdate, stream_id := 0,
             payload := build_u32 v } := by
  rw [buildHead_wu]
  show Frame.parse (0 :: 0 :: 4 :: 8 :: 0 :: 0 :: 0 :: 0 :: 0 :: build_u32 v) = _
  simp only [Frame.parse, parse_u32, List.getD_cons_zero, List.getD_cons_succ,
    List.length_cons, List.drop_succ_cons, List.drop_zero, build_u32, List.length_nil]
  norm_num
  rfl

/-- C3 counterexample: the WINDOW_UPDATE is not prepended. Flushing the
state with buffered byte `[170]` and `req_data_len = 3` writes bytes whose
first 13 bytes are not the WINDOW_UPDATE frame — the frame sits at the
end of the write, after the buffered response bytes. -/
theorem C3_window_update_not_prepended :
    (ResponseEnd.flush ⟨1, 3, Encoder.new, [170], 50, 15000⟩).1.take 13 ≠
      Frame.build_head 4 .windowUpdate 0 0 ++ build_u32 3 := by
  decide

/-- C3 amended: on every flush of a non-empty buffer, the bytes handed to
the TCP write are the buffered bytes followed by (not preceded by)
exactly one appended WINDOW_UPDATE frame on stream 0 whose 4-byte payload
is the accumulated `req_data_len` (as `u32`), and the new state has the
buffer cleared and both counters reset. -/
theorem C3_flush_appends_one_window_update (r : ResponseEnd) (h : r.output ≠ []) :
    (r.flush).1 = r.output ++
      (Frame.build_head 4 .windowUpdate 0 0 ++ build_u32 (r.req_data_len % 2 ^ 32)) ∧
    Frame.parse (Frame.build_head 4 .windowUpdate 0 0 ++ build_u32 (r.req_data_len % 2 ^ 32)) =
      some { len := 4, flags := 0, kind := .windowUpdate, stream_id := 0,
             payload := build_u32 (r.req_data_len % 2 ^ 32) } ∧
    (Frame.build_head 4 .windowUpdate 0 0 ++ build_u32 (r.req_data_len % 2 ^ 32)).length = 9 + 4 ∧
    (r.flush).2.output = [] ∧ (r.flush).2.req_count = 0 ∧ (r.flush).2.req_data_len = 0 := by
  have hlen : ¬ r.output.length = 0 := by
    intro hl
    exact h (List.length_eq_zero.mp hl)
  rw [ResponseEnd.flush, if_neg hlen]
  refine ⟨?_, parse_window_update _, ?_, rfl, rfl, rfl⟩
  · simp [build_window_update, List.append_assoc]
  · simp [Frame.build_head, build_u32]

/-- C3 witness: the amended flush theorem applied to the concrete state
with buffer `[170]` and `req_data_len = 3`. -/
theorem C3_flush_witness :
    (ResponseEnd.flush ⟨1, 3, Encoder.new, [170], 50, 15000⟩).1 =
      [170] ++ (Frame.build_head 4 .windowUpdate 0 0 ++ build_u32 (3 % 2 ^ 32)) :=
  (C3_flush_appends_one_window_update ⟨1, 3, Encoder.new, [170], 50, 15000⟩ (by decide)).1

/-! ## Connection engine, DATA branch (src/pajamax/src/connection.rs) -/

/-- Embeds `enum Error` (src/pajamax/src/error.rs); payload-carrying
variants the claims never construct keep only the constructor. -/
inductive Error
  | InvalidHttp2 (msg : String)
  | InvalidHpack (msg : String)
  | InvalidHuffman
  | InvalidProtobuf
  | IoFail
  | ChannelClosed
  | UnknownMethod (path : String)
  | NoPathSet
deriving DecidableEq, Repr

/-- Embeds `struct Stream` in connection.rs (`id`, `isvc`, `req_disc`). -/
structure Stream where
  id : Nat
  isvc : Nat
  req_disc : Nat
deriving DecidableEq, Repr

/-- Embeds `HeadFlags::is_padded` (`flags & 0x8 != 0`). -/
def Frame.is_padded (f : Frame) : Bool :=
  f.flags &&& 8 != 0

/-- Embeds `Frame::skip_padded`. -/
def Frame.skip_padded (f : Frame) (buf : List Nat) : Except Error (List Nat) :=
  if f.is_padded then
    if buf.length < 1 then .error (.InvalidHttp2 "invalid padded")
    else if buf.length ≤ 1 + buf.getD 0 0 then .error (.InvalidHttp2 "invalid padded")
    else .ok ((buf.take (buf.length - buf.getD 0 0)).drop 1)
  else .ok buf

/-- Embeds `Frame::process_data`. -/
def Frame.process_data (f : Frame) : Except Error (List Nat) :=
  f.skip_padded f.payload

/-- Embeds the `FrameKind::Data` arm of the per-frame loop in
`connection::handle` (lines 159-179): strip padding, silently skip
zero-length payloads (`continue`), reject payloads shorter than the
5-byte gRPC prefix, find and remove the matching stream slot, and hand
the remaining body over (the `service.handle` call itself is outside
this branch). `none` is the skipped (`continue`) outcome. -/
def dataStep (f : Frame) (streams : List Stream) :
    Except Error (Option (Stream × List Nat × List Stream)) :=
  match f.process_data with
  | .error e => .error e
  | .ok req_buf =>
    if req_buf.length = 0 then .ok none
    else if req_buf.length < 5 then .error (.InvalidHttp2 "DATA frame too short for grpc")
    else
      match streams.findIdx? (fun s => s.id == f.stream_id) with
      | none => .error (.InvalidHttp2 "DATA frame without HEADER")
      | some i => .ok (some (streams.getD i ⟨0, 0, 0⟩, req_buf.drop 5, streams.eraseIdx i))

/-- C2 counterexample: a DATA frame whose payload after padding removal is
empty (shorter than 5 bytes) is silently skipped (`continue`), not
rejected: the engine returns the skip outcome, not an `InvalidHttp2`
error. -/
theorem C2_empty_data_skipped :
    dataStep { len := 0, flags := 0, kind := .data, stream_id := 1, payload := [] } [] =
      .ok none := by
  rfl

/-- C2 amended: a DATA frame whose payload after padding removal has
length 1..4 makes the frame-processing loop fail with the connection-fatal
`InvalidHttp2("DATA frame too short for grpc")`; a zero-length payload is
instead skipped silently (see the counterexample). -/
theorem C2_short_data_fatal (f : Frame) (streams : List Stream) (p : List Nat)
    (hp : f.process_data = .ok p) (h1 : 1 ≤ p.length) (h4 : p.length < 5) :
    dataStep f streams = .error (.InvalidHttp2 "DATA frame too short for grpc") := by
  simp only [dataStep, hp]
  rw [if_neg (by omega), if_pos h4]

/-- C2 witness: the amended theorem applied to an unpadded 1-byte DATA
frame. -/
theorem C2_short_data_fatal_witness :
    dataStep { len := 1, flags := 0, kind := .data, stream_id := 1, payload := [7] } [] =
      .error (.InvalidHttp2 "DATA frame too short for grpc") :=
  C2_short_data_fatal _ [] [7] (by rfl) (by decide) (by decide)

/-! ## Huffman codec (src/atiour/src/huffman/mod.rs)

The generated table file (`ENCODE_TABLE` / `DECODE_TABLE` in
`src/atiour/src/huffman/table.rs`) is not present under `src/`; spec §4.1
fixes both tables as HPACK's static Huffman table (RFC 7541 Appendix B),
with the decoder a bit-consuming automaton whose acceptance rule is
"state 0 or maybe_eos" (pending bits a proper prefix of the all-ones EOS
code) and the encoder packing code bits MSB-first, padding the final
partial byte with EOS (all-ones) bits. The codec below is modelled from
that specification at the bit level. -/

/-- Modelled from the spec: HPACK's static Huffman table
(RFC 7541 Appendix B), entry `b` holding `(bit-length, code)` for input
byte `b`. The 30-bit EOS code (all ones, `0x3fffffff`) is not an entry. -/
def table : List (Nat × Nat) := [
  (13, 0x1ff8), (23, 0x7fffd8), (28, 0xfffffe2), (28, 0xfffffe3),
  (28, 0xfffffe4), (28, 0xfffffe5), (28, 0xfffffe6), (28, 0xfffffe7),
  (28, 0xfffffe8), (24, 0xffffea), (30, 0x3ffffffc), (28, 0xfffffe9),
  (28, 0xfffffea), (30, 0x3ffffffd), (28, 0xfffffeb), (28, 0xfffffec),
  (28, 0xfffffed), (28, 0xfffffee), (28, 0xfffffef), (28, 0xffffff0),
  (28, 0xffffff1), (28, 0xffffff2), (30, 0x3ffffffe), (28, 0xffffff3),
  (28, 0xffffff4), (28, 0xffffff5), (28, 0xffffff6), (28, 0xffffff7),
  (28, 0xffffff8), (28, 0xffffff9), (28, 0xffffffa), (28, 0xffffffb),
  (6, 0x14), (10, 0x3f8), (10, 0x3f9), (12, 0xffa),
  (13, 0x1ff9), (6, 0x15), (8, 0xf8), (11, 0x7fa),
  (10, 0x3fa), (10, 0x3fb), (8, 0xf9), (11, 0x7fb),
  (8, 0xfa), (6, 0x16), (6, 0x17), (6, 0x18),
  (5, 0x0), (5, 0x1), (5, 0x2), (6, 0x19),
  (6, 0x1a), (6, 0x1b), (6, 0x1c), (6, 0x1d),
  (6, 0x1e), (6, 0x1f), (7, 0x5c), (8, 0xfb),
  (15, 0x7ffc), (6, 0x20), (12, 0xffb), (10, 0x3fc),
  (13, 0x1ffa), (6, 0x21), (7, 0x5d), (7, 0x5e),
  (7, 0x5f), (7, 0x60), (7, 0x61), (7, 0x62),
  (7, 0x63), (7, 0x64), (7, 0x65), (7, 0x66),
  (7, 0x67), (7, 0x68), (7, 0x69), (7, 0x6a),
  (7, 0x6b), (7, 0x6c), (7, 0x6d), (7, 0x6e),
  (7, 0x6f), (7, 0x70), (7, 0x71), (7, 0x72),
  (8, 0xfc), (7, 0x73), (8, 0xfd), (13, 0x1ffb),
  (19, 0x7fff0), (13, 0x1ffc), (14, 0x3ffc), (6, 0x22),
  (15, 0x7ffd), (5, 0x3), (6, 0x23), (5, 0x4),
  (6, 0x24), (5, 0x5), (6, 0x25), (6, 0x26),
  (6, 0x27), (5, 0x6), (7, 0x74), (7, 0x75),
  (6, 0x28), (6, 0x29), (6, 0x2a), (5, 0x7),
  (6, 0x2b), (7, 0x76), (6, 0x2c), (5, 0x8),
  (5, 0x9), (6, 0x2d), (7, 0x77), (7, 0x78),
  (7, 0x79), (7, 0x7a), (7, 0x7b), (15, 0x7ffe),
  (11, 0x7fc), (14, 0x3ffd), (13, 0x1ffd), (28, 0xffffffc),
  (20, 0xfffe6), (22, 0x3fffd2), (20, 0xfffe7), (20, 0xfffe8),
  (22, 0x3fffd3), (22, 0x3fffd4), (22, 0x3fffd5), (23, 0x7fffd9),
  (22, 0x3fffd6), (23, 0x7fffda), (23, 0x7fffdb), (23, 0x7fffdc),
  (23, 0x7fffdd), (23, 0x7fffde), (24, 0xffffeb), (23, 0x7fffdf),
  (24, 0xffffec), (24, 0xffffed), (22, 0x3fffd7), (23, 0x7fffe0),
  (24, 0xffffee), (23, 0x7fffe1), (23, 0x7fffe2), (23, 0x7fffe3),
  (23, 0x7fffe4), (21, 0x1fffdc), (22, 0x3fffd8), (23, 0x7fffe5),
  (22, 0x3fffd9), (23, 0x7fffe6), (23, 0x7fffe7), (24, 0xffffef),
  (22, 0x3fffda), (21, 0x1fffdd), (20, 0xfffe9), (22, 0x3fffdb),
  (22, 0x3fffdc), (23, 0x7fffe8), (23, 0x7fffe9), (21, 0x1fffde),
  (23, 0x7fffea), (22, 0x3fffdd), (22, 0x3fffde), (24, 0xfffff0),
  (21, 0x1fffdf), (22, 0x3fffdf), (23, 0x7fffeb), (23, 0x7fffec),
  (21, 0x1fffe0), (21, 0x1fffe1), (22, 0x3fffe0), (21, 0x1fffe2),
  (23, 0x7fffed), (22, 0x3fffe1), (23, 0x7fffee), (23, 0x7fffef),
  (20, 0xfffea), (22, 0x3fffe2), (22, 0x3fffe3), (22, 0x3fffe4),
  (23, 0x7ffff0), (22, 0x3fffe5), (22, 0x3fffe6), (23, 0x7ffff1),
  (26, 0x3ffffe0), (26, 0x3ffffe1), (20, 0xfffeb), (19, 0x7fff1),
  (22, 0x3fffe7), (23, 0x7ffff2), (22, 0x3fffe8), (25, 0x1ffffec),
  (26, 0x3ffffe2), (26, 0x3ffffe3), (26, 0x3ffffe4), (27, 0x7ffffde),
  (27, 0x7ffffdf), (26, 0x3ffffe5), (24, 0xfffff1), (25, 0x1ffffed),
  (19, 0x7fff2), (21, 0x1fffe3), (26, 0x3ffffe6), (27, 0x7ffffe0),
  (27, 0x7ffffe1), (26, 0x3ffffe7), (27, 0x7ffffe2), (24, 0xfffff2),
  (21, 0x1fffe4), (21, 0x1fffe5), (26, 0x3ffffe8), (26, 0x3ffffe9),
  (28, 0xffffffd), (27, 0x7ffffe3), (27, 0x7ffffe4), (27, 0x7ffffe5),
  (20, 0xfffec), (24, 0xfffff3), (20, 0xfffed), (21, 0x1fffe6),
  (22, 0x3fffe9), (21, 0x1fffe7), (21, 0x1fffe8), (23, 0x7ffff3),
  (22, 0x3fffea), (22, 0x3fffeb), (25, 0x1ffffee), (25, 0x1ffffef),
  (24, 0xfffff4), (24, 0xfffff5), (26, 0x3ffffea), (23, 0x7ffff4),
  (26, 0x3ffffeb), (27, 0x7ffffe6), (26, 0x3ffffec), (26, 0x3ffffed),
  (27, 0x7ffffe7), (27, 0x7ffffe8), (27, 0x7ffffe9), (27, 0x7ffffea),
  (27, 0x7ffffeb), (28, 0xffffffe), (27, 0x7ffffec), (27, 0x7ffffed),
  (27, 0x7ffffee), (27, 0x7ffffef), (27, 0x7fffff0), (26, 0x3ffffee)]

/-- Bit length of the Huffman code for byte `b`. -/
def codeLen (b : Nat) : Nat := (table.getD b (0, 0)).1

/-- Code value (an integer of `codeLen b` bits) for byte `b`. -/
def codeVal (b : Nat) : Nat := (table.getD b (0, 0)).2

/-- The `n` low bits of `v`, most significant first. -/
def natBits : Nat → Nat → List Bool
  | 0, _ => []
  | n + 1, v => v.testBit n :: natBits n v

/-- The code of byte `b` as a bit list, MSB first. -/
def codeBits (b : Nat) : List Bool := natBits (codeLen b) (codeVal b)

/-- Boolean list-prefix test (first argument a prefix of the second). -/
def isPref : List Bool → List Bool → Bool
  | [], _ => true
  | _ :: _, [] => false
  | a :: as, b :: bs => (a == b) && isPref as bs

/-- A byte as 8 bits, MSB first — the order in which the source decoder
consumes input (high nibble first, high bit of each nibble first). -/
def byteToBits (b : Nat) : List Bool :=
  [b.testBit 7, b.testBit 6, b.testBit 5, b.testBit 4,
   b.testBit 3, b.testBit 2, b.testBit 1, b.testBit 0]

/-- Pack bits (MSB first) into bytes; bits beyond the last full byte are
dropped (the encoder always supplies a multiple of 8). -/
def bitsToBytes : List Bool → List Nat
  | b7 :: b6 :: b5 :: b4 :: b3 :: b2 :: b1 :: b0 :: rest =>
    (b7.toNat * 128 + b6.toNat * 64 + b5.toNat * 32 + b4.toNat * 16 +
     b3.toNat * 8 + b2.toNat * 4 + b1.toNat * 2 + b0.toNat) :: bitsToBytes rest
  | _ => []

/-- Modelled from the spec: `huffman::encode` — concatenate the code bits
of all input bytes MSB-first and pad the final partial byte with the
all-ones EOS prefix, exactly what the source's 40-bit-window loop emits
(`bits |= (1 << bits_left) - 1` writes the ones padding). -/
def encode (src : List Nat) : List Nat :=
  bitsToBytes ((src.map codeBits).flatten ++
    List.replicate ((8 - (src.map codeBits).flatten.length % 8) % 8) true)

/-- First code (by symbol order) that is a prefix of the bit stream. The
table is prefix-free, so at most one code matches. -/
def matchSym (bits : List Bool) : Option Nat :=
  (List.range 256).find? (fun b => isPref (codeBits b) bits)

lemma isPref_length : ∀ xs ys : List Bool, isPref xs ys = true → xs.length ≤ ys.length := by
  intro xs
  induction xs with
  | nil => simp
  | cons a as ih =>
    intro ys h
    cases ys with
    | nil => simp [isPref] at h
    | cons b bs =>
      simp only [isPref, Bool.and_eq_true] at h
      have := ih bs h.2
      simp only [List.length_cons]
      omega

set_option maxRecDepth 100000

lemma table_length : table.length = 256 := by rfl

lemma codePair_mem (b : Nat) (hb : b < 256) : table.getD b (0, 0) ∈ table := by
  have hb2 : b < table.length := by rw [table_length]; exact hb
  rw [List.getD_eq_getElem?_getD, List.getElem?_eq_getElem hb2]
  exact List.getElem_mem hb2

lemma codeLen_sane (b : Nat) (hb : b < 256) :
    5 ≤ codeLen b ∧ codeLen b ≤ 30 ∧ codeVal b < 2 ^ codeLen b ∧
      codeVal b ≠ 2 ^ codeLen b - 1 := by
  have hall : ∀ x ∈ table, 5 ≤ x.1 ∧ x.1 ≤ 30 ∧ x.2 < 2 ^ x.1 ∧ x.2 ≠ 2 ^ x.1 - 1 := by
    decide
  exact hall _ (codePair_mem b hb)

lemma natBits_length (n v : Nat) : (natBits n v).length = n := by
  induction n generalizing v with
  | zero => rfl
  | succ n ih => simp [natBits, ih]

lemma codeBits_length (b : Nat) : (codeBits b).length = codeLen b :=
  natBits_length _ _

lemma matchSym_some {bits : List Bool} {b : Nat} (h : matchSym bits = some b) :
    b < 256 ∧ isPref (codeBits b) bits = true := by
  unfold matchSym at h
  have h2 := List.find?_some h
  exact ⟨List.mem_range.mp (List.mem_of_find?_eq_some h), h2⟩

/-- Modelled from the spec: the decoder's automaton at the bit level.
Repeatedly consume the unique code that prefixes the stream; at end of
input, accept iff the automaton sits at the root (no pending bits) or the
pending bits are a proper prefix of the 30-bit all-ones EOS code
(`maybe_eos`); reaching the full EOS code or a dead branch rejects with
`InvalidHuffmanCode`, modelled as `none`. -/
def decodeBits (bits : List Bool) : Option (List Nat) :=
  match hm : matchSym bits with
  | some b => (decodeBits (bits.drop (codeLen b))).map (fun syms => b :: syms)
  | none => if bits.all (fun x => x) ∧ bits.length < 30 then some [] else none
termination_by bits.length
decreasing_by
  have h1 := matchSym_some hm
  have h2 := isPref_length _ _ h1.2
  rw [codeBits_length] at h2
  have h5 := (codeLen_sane b h1.1).1
  simp only [List.length_drop]
  omega

/-- Modelled from the spec: `huffman::decode` — feed every bit of every
input byte to the automaton (high nibble first), then apply the
final-state acceptance rule. -/
def decode (src : List Nat) : Option (List Nat) :=
  decodeBits ((src.map byteToBits).flatten)

lemma isPref_append_self : ∀ xs ys : List Bool, isPref xs (xs ++ ys) = true := by
  intro xs ys
  induction xs with
  | nil => rfl
  | cons a as ih => simp [isPref, ih]

lemma isPref_append_left : ∀ xs ys zs : List Bool, isPref xs (ys ++ zs) = true →
    xs.length ≤ ys.length → isPref xs ys = true := by
  intro xs
  induction xs with
  | nil => intro ys zs h hl; rfl
  | cons a as ih =>
    intro ys zs h hl
    cases ys with
    | nil => simp at hl
    | cons b bs =>
      simp only [List.cons_append, isPref, Bool.and_eq_true] at h ⊢
      simp only [List.length_cons] at hl
      exact ⟨h.1, ih bs zs h.2 (by omega)⟩

lemma isPref_swap : ∀ ys xs zs : List Bool, isPref xs (ys ++ zs) = true →
    ys.length ≤ xs.length → isPref ys xs = true := by
  intro ys
  induction ys with
  | nil => intro xs zs h hl; rfl
  | cons b bs ih =>
    intro xs zs h hl
    cases xs with
    | nil => simp at hl
    | cons a as =>
      simp only [List.cons_append, isPref, Bool.and_eq_true] at h ⊢
      simp only [List.length_cons] at hl
      refine ⟨?_, ih as zs h.2 (by omega)⟩
      have hab : a = b := by simpa using h.1
      simp [hab]

lemma isPref_natBits : ∀ la lb va vb, isPref (natBits la va) (natBits lb vb) = true →
    la ≤ lb ∧ vb / 2 ^ (lb - la) % 2 ^ la = va % 2 ^ la := by
  intro la
  induction la with
  | zero =>
    intro lb va vb h
    simp [natBits, Nat.mod_one]
  | succ la ih =>
    intro lb va vb h
    cases lb with
    | zero => simp [natBits, isPref] at h
    | succ lb =>
      simp only [natBits, isPref, Bool.and_eq_true] at h
      obtain ⟨hbit, htail⟩ := h
      obtain ⟨hla, heq⟩ := ih lb va vb htail
      refine ⟨by omega, ?_⟩
      rw [show lb + 1 - (la + 1) = lb - la from by omega]
      have hdd : vb / 2 ^ (lb - la) / 2 ^ la = vb / 2 ^ lb := by
        rw [Nat.div_div_eq_div_mul, ← pow_add]
        congr 2
        omega
      have hmod2 : va / 2 ^ la % 2 = vb / 2 ^ lb % 2 := by
        have hbit2 : (va.testBit la) = (vb.testBit lb) := by simpa using hbit
        rw [Nat.testBit_to_div_mod, Nat.testBit_to_div_mod] at hbit2
        have h1 := Nat.mod_two_eq_zero_or_one (va / 2 ^ la)
        have h2 := Nat.mod_two_eq_zero_or_one (vb / 2 ^ lb)
        rcases h1 with h1 | h1 <;> rcases h2 with h2 | h2 <;>
          simp [h1, h2] at hbit2 ⊢
      calc vb / 2 ^ (lb - la) % 2 ^ (la + 1)
          = vb / 2 ^ (lb - la) % 2 ^ la + 2 ^ la * (vb / 2 ^ (lb - la) / 2 ^ la % 2) :=
            Nat.mod_pow_succ
        _ = va % 2 ^ la + 2 ^ la * (va / 2 ^ la % 2) := by rw [heq, hdd, hmod2]
        _ = va % 2 ^ (la + 1) := Nat.mod_pow_succ.symm

/-- Code `x` is an arithmetic prefix of code `y` ((length, value) pairs). -/
def arithPref (x y : Nat × Nat) : Bool :=
  decide (x.1 ≤ y.1) && decide (y.2 / 2 ^ (y.1 - x.1) % 2 ^ x.1 = x.2)

def allPairsFree : List (Nat × Nat) → Bool
  | [] => true
  | x :: xs => (xs.all fun y => !(arithPref x y) && !(arithPref y x)) && allPairsFree xs

set_option maxHeartbeats 4000000 in
lemma table_free : allPairsFree table = true := by decide

lemma getD_mem_pair (l : List (Nat × Nat)) (i : Nat) (h : i < l.length) :
    l.getD i (0, 0) ∈ l := by
  rw [List.getD_eq_getElem?_getD, List.getElem?_eq_getElem h]
  exact List.getElem_mem h

lemma allPairsFree_spec : ∀ (l : List (Nat × Nat)), allPairsFree l = true →
    ∀ i j, i < j → j < l.length →
      arithPref (l.getD i (0, 0)) (l.getD j (0, 0)) = false ∧
      arithPref (l.getD j (0, 0)) (l.getD i (0, 0)) = false := by
  intro l
  induction l with
  | nil =>
    intro h i j hij hj
    simp at hj
  | cons x xs ih =>
    intro h i j hij hj
    simp only [allPairsFree, Bool.and_eq_true, List.all_eq_true] at h
    obtain ⟨hall, hrec⟩ := h
    cases i with
    | zero =>
      cases j with
      | zero => omega
      | succ j =>
        simp only [List.getD_cons_zero, List.getD_cons_succ]
        simp only [List.length_cons] at hj
        have hmem := getD_mem_pair xs j (by omega)
        have hx := hall _ hmem
        simp only [Bool.not_eq_true'] at hx
        exact hx
    | succ i =>
      cases j with
      | zero => omega
      | succ j =>
        simp only [List.getD_cons_succ]
        simp only [List.length_cons] at hj
        exact ih hrec i j (by omega) (by omega)

lemma code_not_arith_pref (a b : Nat) (ha : a < 256) (hb : b < 256) (hne : a ≠ b) :
    arithPref (table.getD a (0, 0)) (table.getD b (0, 0)) = false := by
  rcases Nat.lt_or_ge a b with hab | hab
  · exact (allPairsFree_spec table table_free a b hab (by rw [table_length]; omega)).1
  · have hba : b < a := by omega
    exact (allPairsFree_spec table table_free b a hba (by rw [table_length]; omega)).2

lemma isPref_codeBits_arith (x b : Nat) (hx : x < 256)
    (h : isPref (codeBits x) (codeBits b) = true) :
    arithPref (table.getD x (0, 0)) (table.getD b (0, 0)) = true := by
  obtain ⟨hle, heq⟩ := isPref_natBits (codeLen x) (codeLen b) (codeVal x) (codeVal b) h
  have hxv : codeVal x % 2 ^ codeLen x = codeVal x :=
    Nat.mod_eq_of_lt (codeLen_sane x hx).2.2.1
  rw [hxv] at heq
  simp only [arithPref, Bool.and_eq_true, decide_eq_true_iff]
  exact ⟨hle, heq⟩

lemma isPref_codeBits_false (x b : Nat) (hx : x < 256) (hb : b < 256) (hne : x ≠ b)
    (rest : List Bool) : isPref (codeBits x) (codeBits b ++ rest) = false := by
  rcases hp : isPref (codeBits x) (codeBits b ++ rest) with _ | _
  · rfl
  · exfalso
    rcases le_or_lt (codeLen x) (codeLen b) with hle | hlt
    · have h1 : isPref (codeBits x) (codeBits b) = true :=
        isPref_append_left _ _ _ hp (by rw [codeBits_length, codeBits_length]; exact hle)
      have h2 := isPref_codeBits_arith x b hx h1
      rw [code_not_arith_pref x b hx hb hne] at h2
      exact absurd h2 (by simp)
    · have h1 : isPref (codeBits b) (codeBits x) = true :=
        isPref_swap _ _ _ hp (by rw [codeBits_length, codeBits_length]; omega)
      have h2 := isPref_codeBits_arith b x hb h1
      rw [code_not_arith_pref b x hb hx (by omega)] at h2
      exact absurd h2 (by simp)

lemma find?_unique {p : Nat → Bool} (l : List Nat) (b : Nat) (hmem : b ∈ l)
    (hpb : p b = true) (hother : ∀ x ∈ l, x ≠ b → p x = false) : l.find? p = some b := by
  induction l with
  | nil => simp at hmem
  | cons x xs ih =>
    by_cases hxb : x = b
    · subst hxb
      simp [List.find?_cons, hpb]
    · have hpx : p x = false := hother x (by simp) hxb
      simp only [List.find?_cons, hpx]
      have hmem2 : b ∈ xs := by
        rcases List.mem_cons.mp hmem with h | h
        · exact absurd h.symm hxb
        · exact h
      exact ih hmem2 (fun y hy hyb => hother y (by simp [hy]) hyb)

lemma matchSym_code (b : Nat) (hb : b < 256) (rest : List Bool) :
    matchSym (codeBits b ++ rest) = some b := by
  unfold matchSym
  apply find?_unique
  · exact List.mem_range.mpr hb
  · exact isPref_append_self _ _
  · intro x hxmem hxne
    exact isPref_codeBits_false x b (List.mem_range.mp hxmem) hb hxne rest

lemma isPref_all_true : ∀ (xs : List Bool) (k : Nat),
    isPref xs (List.replicate k true) = true → ∀ x ∈ xs, x = true := by
  intro xs
  induction xs with
  | nil => simp
  | cons a as ih =>
    intro k h x hx
    cases k with
    | zero => simp [isPref] at h
    | succ k =>
      simp only [List.replicate, isPref, Bool.and_eq_true] at h
      rcases List.mem_cons.mp hx with hxa | hxas
      · subst hxa
        simpa using h.1
      · exact ih k h.2 x hxas

lemma natBits_all_true : ∀ (n v : Nat), (∀ x ∈ natBits n v, x = true) →
    v % 2 ^ n = 2 ^ n - 1 := by
  intro n
  induction n with
  | zero => intro v h; exact Nat.mod_one v
  | succ n ih =>
    intro v h
    have hhead : v.testBit n = true := h _ (by simp [natBits])
    have htail : v % 2 ^ n = 2 ^ n - 1 := ih v (fun x hx => h x (by simp [natBits, hx]))
    rw [Nat.testBit_to_div_mod] at hhead
    have hd : v / 2 ^ n % 2 = 1 := of_decide_eq_true hhead
    have hpos : 0 < 2 ^ n := Nat.pos_pow_of_pos n (by norm_num)
    rw [Nat.mod_pow_succ, htail, hd]
    have hps : 2 ^ (n + 1) = 2 ^ n * 2 := by rw [Nat.pow_succ]
    omega

lemma matchSym_pad (k : Nat) : matchSym (List.replicate k true) = none := by
  unfold matchSym
  rw [List.find?_eq_none]
  intro x hxmem
  have hx : x < 256 := List.mem_range.mp hxmem
  simp only [Bool.not_eq_true]
  rcases hp : isPref (codeBits x) (List.replicate k true) with _ | _
  · rfl
  · exfalso
    have hall := isPref_all_true _ _ hp
    have hval := natBits_all_true (codeLen x) (codeVal x) hall
    rw [Nat.mod_eq_of_lt (codeLen_sane x hx).2.2.1] at hval
    exact (codeLen_sane x hx).2.2.2 hval

lemma byteToBits_pack (b7 b6 b5 b4 b3 b2 b1 b0 : Bool) :
    byteToBits (b7.toNat * 128 + b6.toNat * 64 + b5.toNat * 32 + b4.toNat * 16 +
      b3.toNat * 8 + b2.toNat * 4 + b1.toNat * 2 + b0.toNat) =
      [b7, b6, b5, b4, b3, b2, b1, b0] := by
  cases b7 <;> cases b6 <;> cases b5 <;> cases b4 <;>
    cases b3 <;> cases b2 <;> cases b1 <;> cases b0 <;> rfl

lemma flatten_bitsToBytes : ∀ (n : Nat) (l : List Bool), l.length = n → n % 8 = 0 →
    ((bitsToBytes l).map byteToBits).flatten = l := by
  intro n
  induction n using Nat.strong_induction_on with
  | _ n ih =>
    intro l hl h8
    rcases l with _ | ⟨b7, l⟩; · rfl
    rcases l with _ | ⟨b6, l⟩; · simp only [List.length_cons, List.length_nil] at hl; omega
    rcases l with _ | ⟨b5, l⟩; · simp only [List.length_cons, List.length_nil] at hl; omega
    rcases l with _ | ⟨b4, l⟩; · simp only [List.length_cons, List.length_nil] at hl; omega
    rcases l with _ | ⟨b3, l⟩; · simp only [List.length_cons, List.length_nil] at hl; omega
    rcases l with _ | ⟨b2, l⟩; · simp only [List.length_cons, List.length_nil] at hl; omega
    rcases l with _ | ⟨b1, l⟩; · simp only [List.length_cons, List.length_nil] at hl; omega
    rcases l with _ | ⟨b0, l⟩; · simp only [List.length_cons, List.length_nil] at hl; omega
    simp only [List.length_cons] at hl
    simp only [bitsToBytes, List.map_cons, List.flatten_cons, byteToBits_pack]
    rw [ih (n - 8) (by omega) l (by omega) (by omega)]
    rfl

lemma decodeBits_eq_match (bits : List Bool) (b : Nat) (h : matchSym bits = some b) :
    decodeBits bits = (decodeBits (bits.drop (codeLen b))).map (fun syms => b :: syms) := by
  conv_lhs => unfold decodeBits
  split
  · next b2 hm =>
    rw [h] at hm
    injection hm with hb
    subst hb
    rfl
  · next hm =>
    rw [h] at hm
    cases hm

lemma decodeBits_eq_pad (bits : List Bool) (h : matchSym bits = none) :
    decodeBits bits =
      if (bits.all fun x => x) ∧ bits.length < 30 then some [] else none := by
  unfold decodeBits
  split
  · next b2 hm =>
    rw [h] at hm
    cases hm
  · rfl

lemma decodeBits_padded : ∀ (s : List Nat) (k : Nat), (∀ b ∈ s, b < 256) → k ≤ 7 →
    decodeBits ((s.map codeBits).flatten ++ List.replicate k true) = some s := by
  intro s
  induction s with
  | nil =>
    intro k hs hk
    simp only [List.map_nil, List.flatten_nil, List.nil_append]
    rw [decodeBits_eq_pad _ (matchSym_pad k)]
    rw [if_pos]
    constructor
    · simp [List.all_eq_true, List.mem_replicate]
    · simp only [List.length_replicate]
      omega
  | cons b s2 ih =>
    intro k hs hk
    have hb : b < 256 := hs b (by simp)
    simp only [List.map_cons, List.flatten_cons, List.append_assoc]
    rw [decodeBits_eq_match _ b (matchSym_code b hb _)]
    rw [List.drop_left' (codeBits_length b)]
    rw [ih k (fun x hx => hs x (by simp [hx])) hk]
    rfl

/-- C8: Huffman round-trip. For every byte string, decoding the encoder
output succeeds — the all-ones padding (at most 7 bits, a proper prefix
of the 30-bit EOS code) satisfies the final-state acceptance rule — and
yields the original bytes. -/
theorem C8_huffman_roundtrip (s : List Nat) (hs : ∀ b ∈ s, b < 256) :
    decode (encode s) = some s := by
  unfold decode encode
  rw [flatten_bitsToBytes (((s.map codeBits).flatten).length +
      (8 - ((s.map codeBits).flatten).length % 8) % 8)]
  · exact decodeBits_padded s _ hs (by omega)
  · simp
  · omega

/-- C8 witness: the round-trip applied to the two-byte string "hi". -/
theorem C8_huffman_roundtrip_witness : decode (encode [104, 105]) = some [104, 105] :=
  C8_huffman_roundtrip [104, 105] (by decide)

end Pajamax
